import Mathlib

/-!
Verification development for the MicrosoftSecurityExtension repository.

The repository's gates (kubesec manifest scorer, whispers secrets scanner,
template analyzer) resolve scanner-produced selectors against line buffers.
This file embeds, at the level of Unicode character lists (`List Char`,
standing in for JavaScript's per-code-unit string operations; every string
that actually occurs in the repository is ASCII, where the two views agree):

  * the JS string primitives used by the code (`indexOf`, `slice`,
    `replaceAll(' ','')`, `split`, `trim`, `includes`),
  * `removeInvalidCharctersInSentence` and
    `arrangeKubesecSelectorBeforeSearch` from
    `out/gates/kubesec/kubesecGate/kubesec.js`,
  * `readFileByLines` from `out/customGate/gate-functions.js`,
  * the per-result branch of `showTextDocumentWithErrorsKubesec` from
    `kubesec.js` (effects reified as data),
  * the secret-resolution loop of `WhispersGate.scanData` from
    `src/gates/whispers/whispers-gate.ts`,
  * a model of `hierarchySearchInFile` (the HierarchyLocator); its source
    file `src/search.ts` is not part of the repository snapshot, so it is
    modelled from the specification (see its doc comment).
-/

namespace MsSecExt

/-- Boolean test that the list `tok` is an initial run of the list `l`
(character-for-character).  This mirrors how JavaScript's `indexOf`
compares a candidate window against the needle. -/
def headMatches : List Char → List Char → Bool
  | [], _ => true
  | _ :: _, [] => false
  | t :: ts, c :: cs => t == c && headMatches ts cs

/-- Character index of the first occurrence of `tok` as a contiguous
sublist of `s`, or `none`.  This is JS `s.indexOf(tok)` with `-1`
rendered as `none`. -/
def firstOcc (tok : List Char) : List Char → Option Nat
  | [] => if headMatches tok [] then some 0 else none
  | c :: cs => if headMatches tok (c :: cs) then some 0 else (firstOcc tok cs).map (· + 1)

/-- JS `hay.includes(needle)`. -/
def containsStr (hay needle : String) : Bool := (firstOcc needle.data hay.data).isSome

/-- JS `s.replaceAll(' ', '')`: every space character removed. -/
def jsRemoveSpaces (s : String) : String := ⟨s.data.filter (fun c => c != ' ')⟩

/-- JS `s.split(sep)` for a one-character separator, on character lists.
`splitOnChar c [] = [[]]`, matching JS `"".split('.') = [""]`. -/
def splitOnChar (c : Char) : List Char → List (List Char)
  | [] => [[]]
  | x :: xs =>
    let r := splitOnChar c xs
    if x == c then [] :: r
    else
      match r with
      | [] => [[x]]
      | y :: ys => (x :: y) :: ys

/-- JS `s.split(sep)` for a one-character separator, on strings. -/
def jsSplit (c : Char) (s : String) : List String :=
  (splitOnChar c s.data).map (fun l => ⟨l⟩)

/-- Whitespace characters recognised by JS `String.trim` (the ASCII ones,
which are the only whitespace characters occurring in this repository). -/
def isJsSpace (c : Char) : Bool :=
  c == ' ' || c == '\t' || c == '\n' || c == '\r' || c == '\x0b' || c == '\x0c'

/-- JS `s.trim()`: leading and trailing whitespace removed. -/
def jsTrim (s : String) : String :=
  ⟨((s.data.dropWhile isJsSpace).reverse.dropWhile isJsSpace).reverse⟩

/-- JS `s.slice(0, -2)`: all but the last two characters. -/
def jsSliceDropLastTwo (s : String) : String := ⟨s.data.take (s.data.length - 2)⟩

/-! ## The kubesec selector normalizer (`kubesec.js`, lines 14 and 33-86) -/

/-- Translation of `const kubesecSelectorInvalidCharcters = ['|', '==', '-']`
(`kubesec.js` line 14). -/
def kubesecSelectorInvalidCharcters : List String := ["|", "==", "-"]

/-- One iteration of the `forEach` in `removeInvalidCharctersInSentence`
(`kubesec.js` lines 34-39): if `ch` occurs in the sentence, cut the
sentence just before its first occurrence
(`searchSentence = searchSentence.slice(0, indexOfInvalidCharacter)`). -/
def cutAtTok (acc ch : String) : String :=
  match firstOcc ch.data acc.data with
  | none => acc
  | some i => ⟨acc.data.take i⟩

/-- Translation of `removeInvalidCharctersInSentence` (`kubesec.js` lines
33-41): the cut is applied once per invalid token, sequentially, in list
order. -/
def removeInvalidCharctersInSentence (searchSentence : String) (invalidCharcters : List String) : String :=
  invalidCharcters.foldl cutAtTok searchSentence

/-- First-occurrence index of `tok` in `l`, with the length of `l` standing
in for ``no occurrence``. -/
def idxOr (tok l : List Char) : Nat := (firstOcc tok l).getD l.length

/-- The earliest truncation point over the three kubesec invalid tokens. -/
def kubesecEarliestCutIdx (l : List Char) : Nat :=
  min (idxOr ['|'] l) (min (idxOr ['=', '='] l) (idxOr ['-'] l))

/-- Definition following the specification's words (section 4.1 rule 2):
truncate the string at the first occurrence of any of the tokens `|`,
`==`, `-`, i.e. at the earliest of their first-occurrence positions. -/
def truncateAtEarliestInvalid (s : String) : String :=
  ⟨s.data.take (kubesecEarliestCutIdx s.data)⟩

/-- First step of `arrangeKubesecSelectorBeforeSearch` (`kubesec.js` lines
66-70): `if (searchSentence[0] === '.') searchSentence = searchSentence.slice(1, ...)`. -/
def kubesecDropLeadingDot (searchSentence : String) : String :=
  match searchSentence.data with
  | '.' :: rest => ⟨rest⟩
  | _ => searchSentence

/-- The token list `searchSentenceSplit` of `arrangeKubesecSelectorBeforeSearch`
(`kubesec.js` lines 76-77): truncate at the invalid tokens, remove all
spaces, split on `'.'`. -/
def kubesecRawTokens (searchSentence : String) : List String :=
  jsSplit '.'
    (jsRemoveSpaces
      (removeInvalidCharctersInSentence (kubesecDropLeadingDot searchSentence)
        kubesecSelectorInvalidCharcters))

/-- The token list after the array-marker strip (`kubesec.js` lines 78-80):
`if (searchSentenceSplit[0].includes("containers[]"))
 searchSentenceSplit[0] = searchSentenceSplit[0].trim().slice(0, -2)`. -/
def kubesecTokensAfterArrayStrip (searchSentence : String) : List String :=
  match kubesecRawTokens searchSentence with
  | [] => []
  | t :: rest =>
    if containsStr t "containers[]" then jsSliceDropLastTwo (jsTrim t) :: rest
    else t :: rest

/-- Translation of `arrangeKubesecSelectorBeforeSearch` (`kubesec.js` lines
65-86).  The JS function also receives a `fileToSearchIn` argument that it
never reads; it is omitted here.  Final step (lines 81-83):
`if (searchSentenceSplit[0].includes("metadata")) searchSentenceSplit = ["metadata"]`. -/
def arrangeKubesecSelectorBeforeSearch (searchSentence : String) : List String :=
  match kubesecTokensAfterArrayStrip searchSentence with
  | [] => []
  | t :: rest => if containsStr t "metadata" then ["metadata"] else t :: rest

/-! ## Reading a file into lines (`gate-functions.js` lines 46-60 and
`kubesec.js` lines 54-64; the two `readFileByLines` bodies are identical) -/

/-- Translation of the success path of `readFileByLines`:
`document.trim().split('\n')`. -/
def readFileByLinesOfContent (content : String) : List String :=
  jsSplit '\n' (jsTrim content)

/-- Effectful shape of `readFileByLines` over an explicit file system
(`path ↦ some content` when the file exists).  `fs.readFileSync` throws on
a missing file; the surrounding `try`/`catch` then calls
`displayErrorMessage("There is no such file!")` and the function returns
`undefined` (`none` here).  The second component collects the messages
displayed. -/
def readFileByLinesWithFs (fs : String → Option String) (pathOfFileToSearchIn : String) :
    Option (List String) × List String :=
  match fs pathOfFileToSearchIn with
  | some content => (some (readFileByLinesOfContent content), [])
  | none => (none, ["There is no such file!"])

/-- Splitting a string on newline characters with no trimming at all (used
to compare the code's behaviour with the specification's description of a
Document, which asks only for a single trailing empty line to be removed). -/
def splitLinesNoTrim (content : String) : List String := jsSplit '\n' content

/-- Definition following the specification's words (section 3): the content
split on newlines, ``trimmed of a single trailing empty line``, everything
else preserved. -/
def specDocumentOfContent (content : String) : List String :=
  let lines := splitLinesNoTrim content
  match lines.getLast? with
  | some "" => lines.dropLast
  | _ => lines

/-! ## The HierarchyLocator

The resolver `hierarchySearchInFile` is imported by `extension.ts`,
`whispers-gate.ts` and `kubesec.js` from `./search`, but `src/search.ts` is
not part of the repository snapshot; only its callers and its result shape
(`requestedLine`, `numOfTabs`, `fileToSearchIn`) are visible.  It is
therefore modelled from the specification below. -/

/-- Indentation characters (specification section 4.2 step 2: tabs or an
equivalent fixed-width whitespace unit). -/
def isIndentChar (c : Char) : Bool := c == ' ' || c == '\t'

/-- Modelled from the spec: the raw indentation of a line, used to bound
child regions (section 4.2 step 4: lines nested under a matched line are
the following lines with greater indentation depth).  Counted in leading
whitespace characters. -/
def lineIndent (line : String) : Nat := (line.data.takeWhile isIndentChar).length

/-- Modelled from the spec: the ``de-indented textual key`` of a line
(section 4.2 step 3): leading indentation and a YAML list marker (`- `)
stripped, then the characters up to the first `:` or whitespace. -/
def lineKey (line : String) : String :=
  let body := line.data.dropWhile isIndentChar
  let body :=
    match body with
    | '-' :: rest => rest.dropWhile isIndentChar
    | _ => body
  ⟨body.takeWhile (fun c => c != ':' && !isIndentChar c)⟩

/-- Modelled from the spec: a line matches a segment when its de-indented
key equals the segment's name (section 4.2 step 3: a key comparison, not a
substring search over the whole line). -/
def lineMatchesKey (line key : String) : Bool := lineKey line == key

/-- Result record of `hierarchySearchInFile`, with the field names used by
the callers: `requestedLine` (`-1` when not found), `numOfTabs` (the
structural nesting depth of the match), and `fileToSearchIn` (the
remaining working buffer threaded to the next search). -/
structure SearchResult where
  requestedLine : Int
  numOfTabs : Nat
  fileToSearchIn : List (Nat × String)
  deriving DecidableEq, Repr

/-- First position in a list satisfying a Boolean test, if any. -/
def findFirstIdx (p : α → Bool) : List α → Option Nat
  | [] => none
  | a :: l => if p a then some 0 else (findFirstIdx p l).map (· + 1)

/-- Modelled from the spec: the child region of the line at position `p`
of the working buffer (section 4.2 step 4): the following lines, up to but
not including the first line whose indentation returns to the matched
line's indentation or less. -/
def childRegion (ws : List (Nat × String)) (p : Nat) : List (Nat × String) :=
  let ind := lineIndent (ws.getD p (0, "")).2
  (ws.drop (p + 1)).takeWhile (fun l => decide (ind < lineIndent l.2))

/-- Modelled from the spec: the search walk of `hierarchySearchInFile`
(section 4.2).  The working buffer carries each line together with its
absolute index in the original document (section 3: the original document
is used for the final answer's absolute line numbering, while the working
buffer shrinks).  For each segment in turn, the first line of the current
region whose key matches is chosen (step 6); on the last segment its
absolute index and the structural depth are returned (step 4); otherwise
the walk continues in that line's child region (step 4).  An exhausted
region or an empty segment sequence yields `none` (steps 5 and the empty
edge case of section 4.2). -/
def locate (segs : List String) (ws : List (Nat × String)) (lvl : Nat) : Option (Nat × Nat) :=
  match segs with
  | [] => none
  | k :: rest =>
    match findFirstIdx (fun l => lineMatchesKey l.2 k) ws with
    | none => none
    | some p =>
      match rest with
      | [] => some ((ws.getD p (0, "")).1, lvl)
      | _ => locate rest (childRegion ws p) (lvl + 1)

/-- Modelled from the spec: `hierarchySearchInFile` from the missing
`src/search.ts` (specification sections 3 and 4.2).  On success the
matched line's absolute index is returned and the remaining buffer drops
everything up to and including the matched line (step 7); on failure the
sentinel `-1` is returned and the buffer is unchanged. -/
def hierarchySearchInFile (fileToSearchIn : List (Nat × String)) (segments : List String) :
    SearchResult :=
  match locate segments fileToSearchIn 0 with
  | none => ⟨-1, 0, fileToSearchIn⟩
  | some (i, lvl) => ⟨(i : Int), lvl, fileToSearchIn.dropWhile (fun l => decide (l.1 ≤ i))⟩

/-- A document entering its first search: each line paired with its
absolute index. -/
def enumDoc (d : List String) : List (Nat × String) := List.enum d

/-! ## The kubesec caller (`kubesec.js` lines 111-131) -/

/-- Editor interactions performed by `showTextDocumentWithErrorsKubesec`,
reified as data: an information message, a highlight
(`highLightTextInFile(requestedLine, numOfTabs)`), or a cursor jump
(`jumpSpecifiedLine(requestedLine, textDocument.uri.path)`). -/
inductive KubesecEffect where
  | message (text : String)
  | highlight (line : Int) (column : Nat)
  | jump (line : Int) (path : String)
  deriving DecidableEq, Repr

/-- Translation of the per-result branch of `showTextDocumentWithErrorsKubesec`
(`kubesec.js` lines 118-128): given the search result for one kubesec
finding, either display `searchSentence + " not found!"` (when
`requestedLine === -1`) or highlight the line from column `numOfTabs` and
jump the cursor to it. -/
def showKubesecResultEffects (searchSentence : String) (path : String)
    (searchResult : SearchResult) : List KubesecEffect :=
  if searchResult.requestedLine = -1 then
    [KubesecEffect.message (searchSentence ++ " not found!")]
  else
    [KubesecEffect.highlight searchResult.requestedLine searchResult.numOfTabs,
     KubesecEffect.jump searchResult.requestedLine path]

/-- Translation of the resolution loop of `showTextDocumentWithErrorsKubesec`
(`kubesec.js` lines 113-129): for every result in `kubesecResult`, the file
is re-read from disk (`documentText = await readFileByLines(textDocument.fileName)`
inside the `forEach`), the selector is normalized, and the search runs on
the freshly read full document; the search result's remaining buffer is
never threaded to the next iteration.  The file content does not change
between iterations, so every iteration searches the same buffer `doc`. -/
def kubesecResolveSelectors (doc : List (Nat × String)) (selectors : List String) :
    List SearchResult :=
  selectors.map (fun sel => hierarchySearchInFile doc (arrangeKubesecSelectorBeforeSearch sel))

/-! ## The whispers caller (`whispers-gate.ts` lines 56-62) -/

/-- Translation of `sec.split(' ')[0]` wrapped in a one-element segment
list, as passed to `hierarchySearchInFile` by `WhispersGate.scanData`
(`whispers-gate.ts` line 59). -/
def whispersSecretSegments (sec : String) : List String :=
  [((jsSplit ' ' sec).headD "")]

/-- Translation of the secret-resolution loop of `WhispersGate.scanData`
(`whispers-gate.ts` lines 58-62): each secret is searched in
`documentText`, and `documentText` is then replaced by
`searchResults.fileToSearchIn` before the next secret is resolved
(``Updating the file content in case of duplicate secrets``).  The
returned list collects each secret's `requestedLine`. -/
def scanDataResolveSecrets (doc : List (Nat × String)) : List String → List Int
  | [] => []
  | sec :: rest =>
    let searchResults := hierarchySearchInFile doc (whispersSecretSegments sec)
    searchResults.requestedLine :: scanDataResolveSecrets searchResults.fileToSearchIn rest

/-! ## Sanity checks on concrete inputs -/

example :
    arrangeKubesecSelectorBeforeSearch ".spec .containers[] .securityContext .runAsUser -gt 10000" =
      ["spec", "containers[]", "securityContext", "runAsUser"] := by decide

example : arrangeKubesecSelectorBeforeSearch ".metadata .labels .app" = ["metadata"] := by decide

example : arrangeKubesecSelectorBeforeSearch "" = [""] := by decide

example :
    arrangeKubesecSelectorBeforeSearch "containers[] .securityContext .runAsUser -gt 10000" =
      ["containers", "securityContext", "runAsUser"] := by decide

example :
    hierarchySearchInFile
      (enumDoc ["spec:", "  containers:", "    - securityContext:", "        runAsUser: 20000"])
      ["spec", "containers", "securityContext", "runAsUser"] =
    ⟨3, 3, []⟩ := by decide

example :
    (hierarchySearchInFile
      (enumDoc ["spec:", "  containers:", "    - securityContext:", "        runAsUser: 20000"])
      ["spec", "volumes"]).requestedLine = -1 := by decide

example :
    scanDataResolveSecrets (enumDoc ["token: AKIA1", "other: x", "token: AKIA1"])
      ["token secret", "token secret"] = [0, 2] := by decide

example :
    (kubesecResolveSelectors (enumDoc ["password: a", "password: b"])
      ["password", "password"]).map (fun r => r.requestedLine) = [0, 0] := by decide

/-! ## Lemmas about `headMatches` and `firstOcc` -/

theorem headMatches_length_le {t l : List Char} (h : headMatches t l = true) :
    t.length ≤ l.length := by
  induction t generalizing l with
  | nil => exact Nat.zero_le _
  | cons x ts ih =>
    cases l with
    | nil => simp [headMatches] at h
    | cons c cs =>
      simp only [headMatches, Bool.and_eq_true] at h
      simpa [Nat.succ_le_succ_iff] using ih h.2

theorem headMatches_take {t l : List Char} {n : Nat} (h : headMatches t l = true)
    (hn : t.length ≤ n) : headMatches t (l.take n) = true := by
  induction t generalizing l n with
  | nil => simp [headMatches]
  | cons x ts ih =>
    cases l with
    | nil => simp [headMatches] at h
    | cons c cs =>
      simp only [headMatches, Bool.and_eq_true] at h
      cases n with
      | zero => simp at hn
      | succ n =>
        simp only [List.take_succ_cons, headMatches, Bool.and_eq_true]
        exact ⟨h.1, ih h.2 (Nat.le_of_succ_le_succ hn)⟩

theorem headMatches_of_take {t l : List Char} {n : Nat}
    (h : headMatches t (l.take n) = true) : headMatches t l = true := by
  induction t generalizing l n with
  | nil => simp [headMatches]
  | cons x ts ih =>
    cases l with
    | nil => simp [headMatches] at h
    | cons c cs =>
      cases n with
      | zero => simp [headMatches] at h
      | succ n =>
        simp only [List.take_succ_cons, headMatches, Bool.and_eq_true] at h ⊢
        exact ⟨h.1, ih h.2⟩

theorem firstOcc_nil_tok (l : List Char) : firstOcc [] l = some 0 := by
  cases l <;> rfl

theorem firstOcc_some_matches {t l : List Char} {i : Nat} (h : firstOcc t l = some i) :
    headMatches t (l.drop i) = true := by
  induction l generalizing i with
  | nil =>
    cases hm : headMatches t [] with
    | true => simp only [firstOcc, hm, if_true, Option.some.injEq] at h; subst h; simpa using hm
    | false => simp [firstOcc, hm] at h
  | cons c cs ih =>
    cases hm : headMatches t (c :: cs) with
    | true => simp only [firstOcc, hm, if_true, Option.some.injEq] at h; subst h; simpa using hm
    | false =>
      simp only [firstOcc, hm, Bool.false_eq_true, if_false] at h
      cases hfo : firstOcc t cs with
      | none => rw [hfo] at h; simp at h
      | some j =>
        rw [hfo] at h
        simp only [Option.map_some', Option.some.injEq] at h
        subst h
        simpa using ih hfo

theorem firstOcc_some_min {t l : List Char} {i : Nat} (h : firstOcc t l = some i) :
    ∀ j, j < i → headMatches t (l.drop j) = false := by
  induction l generalizing i with
  | nil =>
    intro j hj
    cases hm : headMatches t [] with
    | true => simp only [firstOcc, hm, if_true, Option.some.injEq] at h; omega
    | false => simp [firstOcc, hm] at h
  | cons c cs ih =>
    intro j hj
    cases hm : headMatches t (c :: cs) with
    | true => simp only [firstOcc, hm, if_true, Option.some.injEq] at h; omega
    | false =>
      simp only [firstOcc, hm, Bool.false_eq_true, if_false] at h
      cases hfo : firstOcc t cs with
      | none => rw [hfo] at h; simp at h
      | some i' =>
        rw [hfo] at h
        simp only [Option.map_some', Option.some.injEq] at h
        subst h
        cases j with
        | zero => simpa using hm
        | succ j => simpa using ih hfo j (Nat.lt_of_succ_lt_succ hj)

theorem firstOcc_none_matches {t l : List Char} (h : firstOcc t l = none) :
    ∀ j, headMatches t (l.drop j) = false := by
  induction l with
  | nil =>
    intro j
    cases hm : headMatches t [] with
    | true => simp [firstOcc, hm] at h
    | false => simpa using hm
  | cons c cs ih =>
    intro j
    cases hm : headMatches t (c :: cs) with
    | true => simp [firstOcc, hm] at h
    | false =>
      simp only [firstOcc, hm, Bool.false_eq_true, if_false, Option.map_eq_none'] at h
      cases j with
      | zero => simpa using hm
      | succ j => simpa using ih h j

theorem firstOcc_of_matches {t l : List Char} {i : Nat}
    (hm : headMatches t (l.drop i) = true)
    (hmin : ∀ j, j < i → headMatches t (l.drop j) = false) :
    firstOcc t l = some i := by
  induction l generalizing i with
  | nil =>
    cases i with
    | zero => simp only [List.drop_nil] at hm; simp [firstOcc, hm]
    | succ i =>
      exfalso
      have h0 := hmin 0 (Nat.succ_pos i)
      simp only [List.drop_nil] at hm h0
      rw [hm] at h0
      cases h0
  | cons c cs ih =>
    cases i with
    | zero =>
      simp only [List.drop_zero] at hm
      simp [firstOcc, hm]
    | succ i =>
      have h0 := hmin 0 (Nat.succ_pos i)
      simp only [List.drop_zero] at h0
      simp only [firstOcc, h0, Bool.false_eq_true, if_false]
      have hrec : firstOcc t cs = some i := by
        apply ih
        · simpa using hm
        · intro j hj
          simpa using hmin (j + 1) (Nat.succ_lt_succ hj)
      simp [hrec]

theorem firstOcc_some_le' {t l : List Char} {i : Nat} (h : firstOcc t l = some i) :
    i + t.length ≤ l.length := by
  cases t with
  | nil =>
    rw [firstOcc_nil_tok l] at h
    simp only [Option.some.injEq] at h
    subst h
    simp
  | cons x ts =>
    have hm := firstOcc_some_matches h
    have hlen := headMatches_length_le hm
    have hi : i < l.length := by
      by_contra hge
      push_neg at hge
      rw [List.drop_eq_nil_of_le hge] at hm
      simp [headMatches] at hm
    rw [List.length_drop] at hlen
    omega

theorem headMatches_drop_take {t l : List Char} {n j : Nat}
    (h : headMatches t ((l.take n).drop j) = true) : headMatches t (l.drop j) = true := by
  rw [List.drop_take] at h
  exact headMatches_of_take h

theorem firstOcc_take_none {t l : List Char} {n : Nat} (h : firstOcc t l = none) :
    firstOcc t (l.take n) = none := by
  cases hfo : firstOcc t (l.take n) with
  | none => rfl
  | some j =>
    have hm := headMatches_drop_take (firstOcc_some_matches hfo)
    rw [firstOcc_none_matches h j] at hm
    cases hm

theorem firstOcc_take_fits {t l : List Char} {n i : Nat} (h : firstOcc t l = some i)
    (hn : i + t.length ≤ n) : firstOcc t (l.take n) = some i := by
  apply firstOcc_of_matches
  · rw [List.drop_take]
    exact headMatches_take (firstOcc_some_matches h) (by omega)
  · intro j hj
    cases hm : headMatches t ((l.take n).drop j) with
    | false => rfl
    | true =>
      have := headMatches_drop_take hm
      rw [firstOcc_some_min h j hj] at this
      cases this

theorem firstOcc_take_big {t l : List Char} {n i : Nat} (h : firstOcc t l = some i)
    (hn : n < i + t.length) : firstOcc t (l.take n) = none := by
  cases hfo : firstOcc t (l.take n) with
  | none => rfl
  | some j =>
    exfalso
    have hmj := headMatches_drop_take (firstOcc_some_matches hfo)
    have hji : i ≤ j := by
      by_contra hlt
      push_neg at hlt
      rw [firstOcc_some_min h j hlt] at hmj
      cases hmj
    have hle := firstOcc_some_le' hfo
    rw [List.length_take] at hle
    omega

/-! ## Sequential truncation equals earliest-occurrence truncation -/

theorem mk_data (l : List Char) : (⟨l⟩ : String).data = l := rfl

theorem idxOr_le_length (tok l : List Char) : idxOr tok l ≤ l.length := by
  unfold idxOr
  cases h : firstOcc tok l with
  | none => simp
  | some i =>
    have := firstOcc_some_le' h
    simp only [Option.getD_some]
    omega

theorem idxOr_eq_of_none {tok l : List Char} (h : firstOcc tok l = none) :
    idxOr tok l = l.length := by
  unfold idxOr
  rw [h]
  rfl

theorem idxOr_eq_of_some {tok l : List Char} {i : Nat} (h : firstOcc tok l = some i) :
    idxOr tok l = i := by
  unfold idxOr
  rw [h]
  rfl

theorem cutAtTok_eq_take (acc ch : String) :
    cutAtTok acc ch = ⟨acc.data.take (idxOr ch.data acc.data)⟩ := by
  unfold cutAtTok idxOr
  cases h : firstOcc ch.data acc.data with
  | none =>
    simp only [Option.getD_none, List.take_length]
  | some i => simp

theorem headMatches_pair {a b : Char} {l : List Char} (h : headMatches [a, b] l = true) :
    ∃ t, l = a :: b :: t := by
  cases l with
  | nil => simp [headMatches] at h
  | cons c cs =>
    cases cs with
    | nil => simp [headMatches] at h
    | cons d ds =>
      simp only [headMatches, Bool.and_eq_true, beq_iff_eq] at h
      obtain ⟨h1, h2, -⟩ := h
      subst h1
      subst h2
      exact ⟨ds, rfl⟩

theorem pipe_occ_ne_succ_eqeq {l : List Char} {p i2 : Nat}
    (h1 : firstOcc ['|'] l = some p) (h2 : firstOcc ['=', '='] l = some i2) :
    p ≠ i2 + 1 := by
  intro hp
  obtain ⟨t, ht⟩ := headMatches_pair (firstOcc_some_matches h2)
  have hm1 := firstOcc_some_matches h1
  rw [hp] at hm1
  have hdrop : l.drop (i2 + 1) = '=' :: t := by
    have hd : (l.drop i2).drop 1 = l.drop (i2 + 1) := List.drop_drop 1 i2 l
    rw [← hd, ht]
    rfl
  rw [hdrop] at hm1
  have hne : ('|' == '=') = false := by decide
  simp [headMatches, hne] at hm1

theorem take_idxOr_take_eqeq (l : List Char) :
    (l.take (idxOr ['|'] l)).take (idxOr ['=', '='] (l.take (idxOr ['|'] l))) =
      l.take (min (idxOr ['|'] l) (idxOr ['=', '='] l)) := by
  have hn1 : idxOr ['|'] l ≤ l.length := idxOr_le_length ['|'] l
  cases h2 : firstOcc ['=', '='] l with
  | none =>
    have hidx : idxOr ['=', '='] (l.take (idxOr ['|'] l)) = idxOr ['|'] l := by
      rw [idxOr_eq_of_none (firstOcc_take_none h2), List.length_take]
      omega
    have hidx2 : idxOr ['=', '='] l = l.length := idxOr_eq_of_none h2
    rw [hidx, hidx2, List.take_take]
    congr 1
    omega
  | some i2 =>
    have hlen2 : i2 + 2 ≤ l.length := by
      have := firstOcc_some_le' h2
      simpa using this
    by_cases hfit : i2 + 2 ≤ idxOr ['|'] l
    · have htf : firstOcc ['=', '='] (l.take (idxOr ['|'] l)) = some i2 :=
        firstOcc_take_fits h2 (by simpa using hfit)
      rw [idxOr_eq_of_some htf, idxOr_eq_of_some h2, List.take_take]
      congr 1
      omega
    · push_neg at hfit
      have hle : idxOr ['|'] l ≤ i2 := by
        cases h1 : firstOcc ['|'] l with
        | none =>
          have hn1' : idxOr ['|'] l = l.length := idxOr_eq_of_none h1
          omega
        | some p =>
          have hp : idxOr ['|'] l = p := idxOr_eq_of_some h1
          have hne := pipe_occ_ne_succ_eqeq h1 h2
          omega
      have htb : firstOcc ['=', '='] (l.take (idxOr ['|'] l)) = none :=
        firstOcc_take_big h2 (by simpa using hfit)
      have hidx : idxOr ['=', '='] (l.take (idxOr ['|'] l)) = idxOr ['|'] l := by
        rw [idxOr_eq_of_none htb, List.length_take]
        omega
      rw [hidx, idxOr_eq_of_some h2, List.take_take]
      congr 1
      omega

theorem take_idxOr_take_single (c : Char) (l : List Char) (b : Nat) (hb : b ≤ l.length) :
    (l.take b).take (idxOr [c] (l.take b)) = l.take (min b (idxOr [c] l)) := by
  cases h3 : firstOcc [c] l with
  | none =>
    have hidx : idxOr [c] (l.take b) = b := by
      rw [idxOr_eq_of_none (firstOcc_take_none h3), List.length_take]
      omega
    have hidx2 : idxOr [c] l = l.length := idxOr_eq_of_none h3
    rw [hidx, hidx2, List.take_take]
    congr 1
    omega
  | some i3 =>
    by_cases hfit : i3 + 1 ≤ b
    · have htf : firstOcc [c] (l.take b) = some i3 :=
        firstOcc_take_fits h3 (by simpa using hfit)
      rw [idxOr_eq_of_some htf, idxOr_eq_of_some h3, List.take_take]
      congr 1
      omega
    · push_neg at hfit
      have htb : firstOcc [c] (l.take b) = none :=
        firstOcc_take_big h3 (by simpa using hfit)
      have hidx : idxOr [c] (l.take b) = b := by
        rw [idxOr_eq_of_none htb, List.length_take]
        omega
      have hi3 : idxOr [c] l = i3 := idxOr_eq_of_some h3
      rw [hidx, hi3, List.take_take]
      congr 1
      omega

/-- Claim C6: for every selector string, the sequential truncation
performed by `removeInvalidCharctersInSentence` with the kubesec invalid
tokens `|`, `==`, `-` (one `indexOf`/`slice` pass per token, in that
order) is equivalent to a single cut at the earliest first occurrence of
any of the three tokens. -/
theorem claim6_truncation_equivalence (s : String) :
    removeInvalidCharctersInSentence s kubesecSelectorInvalidCharcters =
      truncateAtEarliestInvalid s := by
  unfold removeInvalidCharctersInSentence kubesecSelectorInvalidCharcters
  unfold truncateAtEarliestInvalid kubesecEarliestCutIdx
  simp only [List.foldl_cons, List.foldl_nil]
  rw [cutAtTok_eq_take s "|", cutAtTok_eq_take _ "==", cutAtTok_eq_take _ "-"]
  simp only [mk_data]
  have hmin : min (idxOr ['|'] s.data) (idxOr ['=', '='] s.data) ≤ s.data.length := by
    have := idxOr_le_length ['|'] s.data
    omega
  rw [take_idxOr_take_eqeq s.data,
    take_idxOr_take_single '-' s.data (min (idxOr ['|'] s.data) (idxOr ['=', '='] s.data)) hmin]
  congr 2
  omega

/-! ## The normalizer on the specification's example selectors -/

/-- Claim C1 counterexample: normalizing
`.spec .containers[] .securityContext .runAsUser -gt 10000` does not yield
the four segments `[spec, containers, securityContext, runAsUser]`; the
array marker of the `containers[]` token is not stripped, because the
strip in `arrangeKubesecSelectorBeforeSearch` only fires when the first
split token contains `containers[]`, and here the first token is `spec`. -/
theorem claim1_counterexample :
    arrangeKubesecSelectorBeforeSearch
        ".spec .containers[] .securityContext .runAsUser -gt 10000" ≠
      ["spec", "containers", "securityContext", "runAsUser"] := by decide

/-- Claim C1 amended: normalizing
`.spec .containers[] .securityContext .runAsUser -gt 10000` yields exactly
the four segments `[spec, containers[], securityContext, runAsUser]`: the
`-gt 10000` clause is truncated, but the array marker `[]` is kept on the
`containers[]` segment (the strip applies only when the first segment
contains `containers[]`), and no segment is marked repeatable. -/
theorem claim1_amended :
    arrangeKubesecSelectorBeforeSearch
        ".spec .containers[] .securityContext .runAsUser -gt 10000" =
      ["spec", "containers[]", "securityContext", "runAsUser"] := by decide

theorem firstOcc_head_notin {t : Char} {ts l : List Char}
    (h : ∀ c ∈ l, (t == c) = false) : firstOcc (t :: ts) l = none := by
  induction l with
  | nil => rfl
  | cons c cs ih =>
    have hc : (t == c) = false := h c (List.mem_cons_self c cs)
    have hrest : firstOcc (t :: ts) cs = none :=
      ih (fun x hx => h x (List.mem_cons_of_mem c hx))
    simp [firstOcc, headMatches, hc, hrest]

theorem cutAtTok_id_of_head_notin {s : String} {t : Char} {ts : List Char} (ch : String)
    (hch : ch.data = t :: ts) (h : ∀ c ∈ s.data, (t == c) = false) : cutAtTok s ch = s := by
  unfold cutAtTok
  rw [hch, firstOcc_head_notin h]

/-- Claim C3 counterexample: the empty selector does not normalize to an
empty segment sequence; `arrangeKubesecSelectorBeforeSearch` returns the
one-element sequence containing the empty string (JS `"".split('.')` is
`[""]`). -/
theorem claim3_counterexample :
    arrangeKubesecSelectorBeforeSearch "" = [""] ∧
      arrangeKubesecSelectorBeforeSearch "" ≠ ([] : List String) := by decide

/-- Claim C3 amended: every empty or space-only selector normalizes to the
one-element sequence `[""]` — a sequence with no usable segment text, but
not the empty sequence — and the normalizer is a total function (the
embedding shows no operation on this path can fail). -/
theorem claim3_amended (s : String) (h : ∀ c ∈ s.data, c = ' ') :
    arrangeKubesecSelectorBeforeSearch s = [""] := by
  have hdot : kubesecDropLeadingDot s = s := by
    unfold kubesecDropLeadingDot
    cases hs : s.data with
    | nil => rfl
    | cons c cs =>
      have hc : c = ' ' := h c (by rw [hs]; exact List.mem_cons_self c cs)
      subst hc
      rfl
  have hinv : removeInvalidCharctersInSentence s kubesecSelectorInvalidCharcters = s := by
    unfold removeInvalidCharctersInSentence kubesecSelectorInvalidCharcters
    simp only [List.foldl_cons, List.foldl_nil]
    rw [cutAtTok_id_of_head_notin "|" rfl (fun c hc => by rw [h c hc]; decide),
      cutAtTok_id_of_head_notin "==" rfl (fun c hc => by rw [h c hc]; decide),
      cutAtTok_id_of_head_notin "-" rfl (fun c hc => by rw [h c hc]; decide)]
  have hsp : jsRemoveSpaces s = "" := by
    unfold jsRemoveSpaces
    have hf : s.data.filter (fun c => c != ' ') = [] := by
      rw [List.filter_eq_nil_iff]
      intro a ha
      rw [h a ha]
      decide
    rw [hf]
  have hraw : kubesecRawTokens s = [""] := by
    unfold kubesecRawTokens
    rw [hdot, hinv, hsp]
    decide
  have hstrip : kubesecTokensAfterArrayStrip s = [""] := by
    unfold kubesecTokensAfterArrayStrip
    rw [hraw]
    decide
  unfold arrangeKubesecSelectorBeforeSearch
  rw [hstrip]
  decide

theorem claim3_amended_witness :
    (∀ c ∈ ("  " : String).data, c = ' ') ∧
      arrangeKubesecSelectorBeforeSearch "  " = [""] :=
  ⟨by decide, claim3_amended "  " (by decide)⟩

/-- Claim C5: whenever the first normalized token (after whitespace
removal, splitting on `.` and the array-marker strip) contains
`metadata`, the whole segment sequence collapses to the single segment
`metadata`. -/
theorem claim5_metadata_collapse (s : String)
    (h : containsStr ((kubesecTokensAfterArrayStrip s).headD "") "metadata" = true) :
    arrangeKubesecSelectorBeforeSearch s = ["metadata"] := by
  unfold arrangeKubesecSelectorBeforeSearch
  cases hts : kubesecTokensAfterArrayStrip s with
  | nil =>
    rw [hts] at h
    exact absurd h (by decide)
  | cons t rest =>
    rw [hts] at h
    simp only [List.headD_cons] at h
    simp [h]

theorem claim5_witness :
    containsStr ((kubesecTokensAfterArrayStrip ".metadata .labels .app").headD "")
        "metadata" = true ∧
      arrangeKubesecSelectorBeforeSearch ".metadata .labels .app" = ["metadata"] :=
  ⟨by decide, claim5_metadata_collapse ".metadata .labels .app" (by decide)⟩

/-! ## The kubesec caller's handling of search results -/

/-- Claim C4: for every kubesec search result, when `requestedLine` is the
sentinel `-1` the caller produces exactly the message
`searchSentence ++ " not found!"` (so no highlight and no cursor jump),
and otherwise it produces exactly the highlight at column `numOfTabs` and
the cursor jump to `requestedLine` (so no not-found message). -/
theorem claim4_kubesec_result_effects (searchSentence path : String) (r : SearchResult) :
    (r.requestedLine = -1 →
      showKubesecResultEffects searchSentence path r =
        [KubesecEffect.message (searchSentence ++ " not found!")]) ∧
    (r.requestedLine ≠ -1 →
      showKubesecResultEffects searchSentence path r =
        [KubesecEffect.highlight r.requestedLine r.numOfTabs,
         KubesecEffect.jump r.requestedLine path]) := by
  unfold showKubesecResultEffects
  constructor
  · intro h
    rw [if_pos h]
  · intro h
    rw [if_neg h]

theorem claim4_witness :
    showKubesecResultEffects "sel" "p" ⟨-1, 0, []⟩ =
        [KubesecEffect.message ("sel" ++ " not found!")] ∧
      showKubesecResultEffects "sel" "p" ⟨2, 1, []⟩ =
        [KubesecEffect.highlight 2 1, KubesecEffect.jump 2 "p"] :=
  ⟨(claim4_kubesec_result_effects "sel" "p" ⟨-1, 0, []⟩).1 rfl,
   (claim4_kubesec_result_effects "sel" "p" ⟨2, 1, []⟩).2 (by decide)⟩

/-! ## The whispers secret token -/

theorem splitOnChar_ne_nil (c : Char) (l : List Char) : splitOnChar c l ≠ [] := by
  cases l with
  | nil => simp [splitOnChar]
  | cons x xs =>
    simp only [splitOnChar]
    cases hx : x == c with
    | true => simp
    | false =>
      cases hr : splitOnChar c xs with
      | nil => simp
      | cons y ys => simp

theorem splitOnChar_headD (c : Char) (l : List Char) :
    (splitOnChar c l).headD [] = l.takeWhile (fun x => x != c) := by
  induction l with
  | nil => rfl
  | cons x xs ih =>
    simp only [splitOnChar]
    cases hx : x == c with
    | true =>
      simp [List.takeWhile_cons, bne, hx]
    | false =>
      cases hr : splitOnChar c xs with
      | nil => exact absurd hr (splitOnChar_ne_nil c xs)
      | cons y ys =>
        have hy : y = xs.takeWhile (fun a => a != c) := by
          rw [← ih, hr]
          rfl
        simp [List.takeWhile_cons, bne, hx, hy]

/-- Claim C7: for every secret string, the segment list passed by
`WhispersGate.scanData` to the search is the single token before the first
space character (`sec.split(' ')[0]`); in particular the fragment
`AKIAEXAMPLE123 aws_access_key_id` yields the single segment
`AKIAEXAMPLE123`. -/
theorem claim7_whispers_first_token :
    (∀ sec : String,
        whispersSecretSegments sec = [⟨sec.data.takeWhile (fun c => c != ' ')⟩]) ∧
      whispersSecretSegments "AKIAEXAMPLE123 aws_access_key_id" = ["AKIAEXAMPLE123"] := by
  constructor
  · intro sec
    unfold whispersSecretSegments jsSplit
    cases hr : splitOnChar ' ' sec.data with
    | nil => exact absurd hr (splitOnChar_ne_nil ' ' sec.data)
    | cons y ys =>
      have hy := splitOnChar_headD ' ' sec.data
      rw [hr] at hy
      simp only [List.headD_cons] at hy
      simp [hy]
  · decide

/-! ## Reading files -/

/-- Claim C8 counterexample: for the content `" a\nb"` the code
(`document.trim().split('\n')`) yields `["a", "b"]`, while splitting on
newlines with only a single trailing empty line removed would yield
`[" a", "b"]`: the leading space of the first line is lost. -/
theorem claim8_counterexample :
    readFileByLinesOfContent " a\nb" = ["a", "b"] ∧
      specDocumentOfContent " a\nb" = [" a", "b"] ∧
      readFileByLinesOfContent " a\nb" ≠ specDocumentOfContent " a\nb" := by decide

/-- Claim C8 amended: the Document is the content split on newlines after
`String.trim` removed all leading and trailing whitespace of the whole
content (not merely a single trailing empty line); in particular, on
content with no leading or trailing whitespace the Document is exactly the
newline split, with every interior line preserved. -/
theorem claim8_amended (content : String) :
    readFileByLinesOfContent content = jsSplit '\n' (jsTrim content) ∧
      (jsTrim content = content →
        readFileByLinesOfContent content = splitLinesNoTrim content) := by
  refine ⟨rfl, fun h => ?_⟩
  unfold readFileByLinesOfContent splitLinesNoTrim
  rw [h]

theorem claim8_amended_witness :
    jsTrim "a\n b\nc" = "a\n b\nc" ∧
      readFileByLinesOfContent "a\n b\nc" = splitLinesNoTrim "a\n b\nc" :=
  ⟨by decide, (claim8_amended "a\n b\nc").2 (by decide)⟩

/-- Claim C10: when the file read fails (the file system has no entry for
the path), `readFileByLines` displays `There is no such file!` and returns
`undefined` (`none`), not a document and not an empty line list. -/
theorem claim10_read_failure (fs : String → Option String) (path : String)
    (h : fs path = none) :
    readFileByLinesWithFs fs path = (none, ["There is no such file!"]) := by
  unfold readFileByLinesWithFs
  rw [h]

theorem claim10_witness :
    ((fun _ : String => (none : Option String)) "missing.yaml" = none) ∧
      readFileByLinesWithFs (fun _ => none) "missing.yaml" =
        (none, ["There is no such file!"]) :=
  ⟨rfl, claim10_read_failure (fun _ => none) "missing.yaml" rfl⟩

/-! ## Single-segment searches over an indexed buffer -/

theorem findFirstIdx_key_enumFrom (k : String) (off : Nat) (d : List String) :
    findFirstIdx (fun l => lineMatchesKey l.2 k) (List.enumFrom off d) =
      findFirstIdx (fun line => lineMatchesKey line k) d := by
  induction d generalizing off with
  | nil => rfl
  | cons x xs ih =>
    simp only [List.enumFrom, findFirstIdx]
    rw [ih]

theorem findFirstIdx_eq_some {α : Type} (q : α → Bool) (d : List α) (dflt : α) (m : Nat)
    (hlen : m < d.length) (hm : q (d.getD m dflt) = true)
    (hb : ∀ j, j < m → q (d.getD j dflt) = false) :
    findFirstIdx q d = some m := by
  induction d generalizing m with
  | nil => simp at hlen
  | cons x xs ih =>
    cases m with
    | zero =>
      simp only [List.getD_cons_zero] at hm
      simp [findFirstIdx, hm]
    | succ m =>
      have h0 : q x = false := by
        have := hb 0 (Nat.succ_pos m)
        simpa using this
      have hrec : findFirstIdx q xs = some m := by
        apply ih
        · simpa using hlen
        · simpa using hm
        · intro j hj
          simpa using hb (j + 1) (Nat.succ_lt_succ hj)
      simp [findFirstIdx, h0, hrec]

theorem getD_enumFrom (off : Nat) (d : List String) (m : Nat) (hlen : m < d.length) :
    (List.enumFrom off d).getD m (0, "") = (off + m, d.getD m "") := by
  induction d generalizing off m with
  | nil => simp at hlen
  | cons x xs ih =>
    cases m with
    | zero => simp [List.enumFrom]
    | succ m =>
      simp only [List.enumFrom, List.getD_cons_succ]
      rw [ih (off + 1) m (by simpa using hlen)]
      congr 1
      omega

theorem dropWhile_le_enumFrom_lt (d : List String) (off c : Nat) (h : c < off) :
    (List.enumFrom off d).dropWhile (fun l => decide (l.1 ≤ c)) = List.enumFrom off d := by
  cases d with
  | nil => rfl
  | cons x xs =>
    simp only [List.enumFrom, List.dropWhile_cons]
    have hdec : decide (off ≤ c) = false := by
      simp
      omega
    simp [hdec]

theorem dropWhile_le_enumFrom (d : List String) (off m : Nat) :
    (List.enumFrom off d).dropWhile (fun l => decide (l.1 ≤ off + m)) =
      List.enumFrom (off + m + 1) (d.drop (m + 1)) := by
  induction d generalizing off m with
  | nil => simp [List.enumFrom]
  | cons x xs ih =>
    simp only [List.enumFrom, List.dropWhile_cons]
    have hoff : decide (off ≤ off + m) = true := by simp
    rw [hoff]
    simp only [if_true]
    cases m with
    | zero =>
      have hlt := dropWhile_le_enumFrom_lt xs (off + 1) off (Nat.lt_succ_self off)
      simp only [Nat.add_zero, List.drop_succ_cons, List.drop_zero]
      exact hlt
    | succ m =>
      have harith : off + (m + 1) = off + 1 + m := by omega
      rw [harith, ih (off + 1) m]
      have harith2 : off + 1 + m + 1 = off + (m + 1) + 1 := by omega
      rw [harith2]
      rfl

theorem locate_single (k : String) (ws : List (Nat × String)) {p : Nat}
    (hf : findFirstIdx (fun l => lineMatchesKey l.2 k) ws = some p) (lvl : Nat) :
    locate [k] ws lvl = some ((ws.getD p (0, "")).1, lvl) := by
  unfold locate
  rw [hf]

theorem hierarchySearch_eq_of_locate_some {ws : List (Nat × String)} {segs : List String}
    {i lvl : Nat} (h : locate segs ws 0 = some (i, lvl)) :
    hierarchySearchInFile ws segs =
      ⟨(i : Int), lvl, ws.dropWhile (fun l => decide (l.1 ≤ i))⟩ := by
  unfold hierarchySearchInFile
  rw [h]

theorem hierarchySearch_single (off : Nat) (d : List String) (k : String) (m : Nat)
    (hlen : m < d.length)
    (hm : lineMatchesKey (d.getD m "") k = true)
    (hb : ∀ j, j < m → lineMatchesKey (d.getD j "") k = false) :
    hierarchySearchInFile (List.enumFrom off d) [k] =
      ⟨((off + m : Nat) : Int), 0, List.enumFrom (off + m + 1) (d.drop (m + 1))⟩ := by
  have hf : findFirstIdx (fun l => lineMatchesKey l.2 k) (List.enumFrom off d) = some m := by
    rw [findFirstIdx_key_enumFrom]
    exact findFirstIdx_eq_some _ d "" m hlen hm hb
  have hloc : locate [k] (List.enumFrom off d) 0 = some (off + m, 0) := by
    rw [locate_single k (List.enumFrom off d) hf 0, getD_enumFrom off d m hlen]
  rw [hierarchySearch_eq_of_locate_some hloc, dropWhile_le_enumFrom]

theorem getD_drop {α : Type} (d : List α) (n j : Nat) (dflt : α) :
    (d.drop n).getD j dflt = d.getD (n + j) dflt := by
  induction d generalizing n with
  | nil => simp
  | cons x xs ih =>
    cases n with
    | zero => simp
    | succ n =>
      simp only [List.drop_succ_cons]
      rw [show n + 1 + j = (n + j) + 1 from by omega, List.getD_cons_succ]
      exact ih n

theorem searchResult_mk_requestedLine (a : Int) (b : Nat) (c : List (Nat × String)) :
    (SearchResult.mk a b c).requestedLine = a := rfl

theorem searchResult_mk_fileToSearchIn (a : Int) (b : Nat) (c : List (Nat × String)) :
    (SearchResult.mk a b c).fileToSearchIn = c := rfl

theorem search_twice_core (d : List String) (k : String) (L1 L2 : Nat)
    (h12 : L1 < L2) (hlen : L2 < d.length)
    (hm1 : lineMatchesKey (d.getD L1 "") k = true)
    (hb1 : ∀ j, j < L1 → lineMatchesKey (d.getD j "") k = false)
    (hm2 : lineMatchesKey (d.getD L2 "") k = true)
    (hb2 : ∀ j, L1 < j → j < L2 → lineMatchesKey (d.getD j "") k = false) :
    hierarchySearchInFile (enumDoc d) [k] =
        ⟨(L1 : Int), 0, List.enumFrom (L1 + 1) (d.drop (L1 + 1))⟩ ∧
      hierarchySearchInFile (List.enumFrom (L1 + 1) (d.drop (L1 + 1))) [k] =
        ⟨(L2 : Int), 0, List.enumFrom (L2 + 1) ((d.drop (L1 + 1)).drop (L2 - L1 - 1 + 1))⟩ := by
  constructor
  · have h := hierarchySearch_single 0 d k L1 (by omega) hm1 hb1
    simp only [Nat.zero_add] at h
    exact h
  · have h := hierarchySearch_single (L1 + 1) (d.drop (L1 + 1)) k (L2 - L1 - 1)
        (by rw [List.length_drop]; omega)
        (by rw [getD_drop, show L1 + 1 + (L2 - L1 - 1) = L2 from by omega]; exact hm2)
        (by intro j hj
            rw [getD_drop]
            exact hb2 (L1 + 1 + j) (by omega) (by omega))
    rw [show L1 + 1 + (L2 - L1 - 1) = L2 from by omega] at h
    exact h

/-- Claim C2 counterexample: for the document `["a:", "  k: 1", "  k: 2"]`
the key `k` appears at line indices 1 < 2, and the segment sequence
`[a, k]` ends in that key; yet the first call returns line 1 and the
second call on the returned remaining buffer returns `-1`, not 2 — the
`a:` parent line was consumed together with everything up to the first
match, so a multi-segment sequence cannot re-resolve. -/
theorem claim2_counterexample :
    (hierarchySearchInFile (enumDoc ["a:", "  k: 1", "  k: 2"]) ["a", "k"]).requestedLine = 1 ∧
      (hierarchySearchInFile
          (hierarchySearchInFile (enumDoc ["a:", "  k: 1", "  k: 2"]) ["a", "k"]).fileToSearchIn
          ["a", "k"]).requestedLine = -1 ∧
      (-1 : Int) ≠ 2 := by decide

/-- Claim C2 amended: for every document in which a key's first two
matching lines are `L1 < L2`, and the single-segment sequence `[k]`
(the form every whispers secret search uses), calling
`hierarchySearchInFile` and then calling it again on the returned
remaining buffer returns `L1` on the first call and `L2` on the second
call, never `L1` twice. -/
theorem claim2_amended (d : List String) (k : String) (L1 L2 : Nat)
    (h12 : L1 < L2) (hlen : L2 < d.length)
    (hm1 : lineMatchesKey (d.getD L1 "") k = true)
    (hb1 : ∀ j, j < L1 → lineMatchesKey (d.getD j "") k = false)
    (hm2 : lineMatchesKey (d.getD L2 "") k = true)
    (hb2 : ∀ j, L1 < j → j < L2 → lineMatchesKey (d.getD j "") k = false) :
    (hierarchySearchInFile (enumDoc d) [k]).requestedLine = (L1 : Int) ∧
      (hierarchySearchInFile (hierarchySearchInFile (enumDoc d) [k]).fileToSearchIn
          [k]).requestedLine = (L2 : Int) := by
  obtain ⟨h1, h2⟩ := search_twice_core d k L1 L2 h12 hlen hm1 hb1 hm2 hb2
  have hbuf : (hierarchySearchInFile (enumDoc d) [k]).fileToSearchIn =
      List.enumFrom (L1 + 1) (d.drop (L1 + 1)) := by rw [h1]
  have hline1 : (hierarchySearchInFile (enumDoc d) [k]).requestedLine = (L1 : Int) := by
    rw [h1]
  have hline2 :
      (hierarchySearchInFile (List.enumFrom (L1 + 1) (d.drop (L1 + 1))) [k]).requestedLine =
        (L2 : Int) := by
    rw [h2]
  exact ⟨hline1, by rw [hbuf, hline2]⟩

theorem claim2_amended_witness :
    (hierarchySearchInFile (enumDoc ["password:", "password: 2"]) ["password"]).requestedLine =
        ((0 : Nat) : Int) ∧
      (hierarchySearchInFile
          (hierarchySearchInFile (enumDoc ["password:", "password: 2"]) ["password"]).fileToSearchIn
          ["password"]).requestedLine = ((1 : Nat) : Int) :=
  claim2_amended ["password:", "password: 2"] "password" 0 1 (by decide) (by decide)
    (by decide) (fun j hj => absurd hj (Nat.not_lt_zero j)) (by decide)
    (fun j h1 h2 => absurd h2 (by omega))

/-- Claim C9 counterexample: at the document `["password: a", "password: b"]`
with the duplicate selector `password`, the kubesec caller's resolution
loop (which re-reads the full file inside the `forEach` on every
iteration) does not equal the remaining-buffer-threaded resolution: the
threaded version advances to line 1 on the second finding, the actual
loop re-resolves line 0. -/
theorem claim9_counterexample :
    kubesecResolveSelectors (enumDoc ["password: a", "password: b"]) ["password", "password"] ≠
      [hierarchySearchInFile (enumDoc ["password: a", "password: b"])
          (arrangeKubesecSelectorBeforeSearch "password"),
        hierarchySearchInFile
          (hierarchySearchInFile (enumDoc ["password: a", "password: b"])
              (arrangeKubesecSelectorBeforeSearch "password")).fileToSearchIn
          (arrangeKubesecSelectorBeforeSearch "password")] := by decide

/-- Claim C9 amended: the whispers caller `scanData` does thread each
secret's returned remaining buffer into the next resolution, so duplicate
secrets resolve to successive occurrences (`L1` then `L2`); the kubesec
caller `showTextDocumentWithErrorsKubesec` instead re-reads the full
document for every finding and resolves each selector against it, so two
identical selectors produce the identical search result twice. -/
theorem claim9_amended :
    (∀ (d : List String) (sec k : String) (L1 L2 : Nat),
        whispersSecretSegments sec = [k] →
        L1 < L2 → L2 < d.length →
        lineMatchesKey (d.getD L1 "") k = true →
        (∀ j, j < L1 → lineMatchesKey (d.getD j "") k = false) →
        lineMatchesKey (d.getD L2 "") k = true →
        (∀ j, L1 < j → j < L2 → lineMatchesKey (d.getD j "") k = false) →
        scanDataResolveSecrets (enumDoc d) [sec, sec] = [(L1 : Int), (L2 : Int)]) ∧
      (∀ (doc : List (Nat × String)) (sel : String),
          kubesecResolveSelectors doc [sel, sel] =
            [hierarchySearchInFile doc (arrangeKubesecSelectorBeforeSearch sel),
             hierarchySearchInFile doc (arrangeKubesecSelectorBeforeSearch sel)]) := by
  constructor
  · intro d sec k L1 L2 hseg h12 hlen hm1 hb1 hm2 hb2
    obtain ⟨h1, h2⟩ := search_twice_core d k L1 L2 h12 hlen hm1 hb1 hm2 hb2
    simp only [scanDataResolveSecrets]
    rw [hseg, h1]
    simp only [searchResult_mk_requestedLine, searchResult_mk_fileToSearchIn]
    rw [h2]
  · intro doc sel
    rfl

theorem claim9_witness :
    scanDataResolveSecrets (enumDoc ["password:", "password: 2"])
        ["password x", "password x"] = [((0 : Nat) : Int), ((1 : Nat) : Int)] ∧
      kubesecResolveSelectors (enumDoc ["a: 1"]) ["a", "a"] =
        [hierarchySearchInFile (enumDoc ["a: 1"]) (arrangeKubesecSelectorBeforeSearch "a"),
         hierarchySearchInFile (enumDoc ["a: 1"]) (arrangeKubesecSelectorBeforeSearch "a")] :=
  ⟨claim9_amended.1 ["password:", "password: 2"] "password x" "password" 0 1 (by decide)
      (by decide) (by decide) (by decide) (fun j hj => absurd hj (Nat.not_lt_zero j))
      (by decide) (fun j h1 h2 => absurd h2 (by omega)),
    claim9_amended.2 (enumDoc ["a: 1"]) "a"⟩

end MsSecExt
